/-
Verification of the diff-to-comment review pipeline (src/main.ts).

The pipeline is embedded shallowly:
- `Change`, `Chunk`, `DiffFile` mirror the parse-diff data model consumed by
  `analyzeCode` (add/del changes carry an `ln` field, context ("normal")
  changes carry `ln1`/`ln2`).
- Untrusted model payloads are JSON values; the dynamic JavaScript behaviour
  of `analyzeCode` / `createComment` (property access on null throwing,
  truthiness tests, `Number()` coercion, `.filter` on a non-array throwing)
  is modelled with a small `Js` value type and `Except String` for thrown
  exceptions.
- The OpenAI collaborator is a parameter `ai : String → Option Js`: `none`
  models a thrown transport error or JSON-unparseable content (both are
  caught inside `getAIResponse` and collapse to a `null` return), `some v`
  the parsed JSON value of the model's message content.
- `core.getInput("exclude")/("include")` splitting on commas is input glue;
  the pattern functions take the comma-split raw entry lists, and the
  `minimatch` collaborator is a parameter `m : String → String → Bool`.
-/
import Mathlib

namespace AiReviewer

/-- A JSON/JavaScript value, as produced by `JSON.parse` on the model's
message content (plus `undef` for JavaScript `undefined`, which property
access on non-objects yields). Objects are association lists; lookup takes
the first binding. Inside `num`, `none` models NaN. -/
inductive Js : Type
  | undef : Js
  | null : Js
  | bool (b : Bool) : Js
  | num (n : Option Int) : Js
  | str (s : String) : Js
  | arr (items : List Js) : Js
  | obj (fields : List (String × Js)) : Js

/-- JavaScript truthiness of a value (`if (aiResponse)`): `undefined`,
`null`, `false`, `0`, NaN and `""` are falsy; arrays and objects (even
empty ones) are truthy. -/
def truthy : Js → Bool
  | Js.undef => false
  | Js.null => false
  | Js.bool b => b
  | Js.num n =>
      match n with
      | none => false
      | some i => decide (i ≠ 0)
  | Js.str s => decide (s ≠ "")
  | Js.arr _ => true
  | Js.obj _ => true

/-- Is the value `null` or `undefined` (property access on it throws)? -/
def isNullish : Js → Bool
  | Js.null => true
  | Js.undef => true
  | _ => false

/-- Total property access: field of an object, `undefined` for any
non-object (including `null`/`undefined`, whose throwing behaviour is
handled by `jsGetField`). -/
def jsFieldT (v : Js) (k : String) : Js :=
  match v with
  | Js.obj fields => (List.lookup k fields).getD Js.undef
  | _ => Js.undef

/-- JavaScript property access `v.k`: throws a TypeError on `null` and
`undefined`, otherwise yields the field (or `undefined`). -/
def jsGetField (v : Js) (k : String) : Except String Js :=
  if isNullish v then Except.error "TypeError: cannot read properties of null or undefined"
  else Except.ok (jsFieldT v k)

/-- `JSON.parse(...).reviews` result viewed as the array `filter`/`forEach`
run over: a TypeError for every non-array (`aiResponse.filter` is not a
function there). -/
def asArray : Js → Except String (List Js)
  | Js.arr items => Except.ok items
  | _ => Except.error "TypeError: aiResponse.filter is not a function"

/-- ASCII whitespace, for the trimming JavaScript performs in `Number()`
and `String.prototype.trim()` (the full Unicode whitespace class is not
needed by any input this development reasons about). -/
def jsIsSpace (ch : Char) : Bool :=
  ch = ' ' || ch = '\t' || ch = '\n' || ch = '\r'

/-- JavaScript `String.prototype.trim()` (over ASCII whitespace). -/
def jsTrim (s : String) : String :=
  String.mk (((s.data.dropWhile jsIsSpace).reverse.dropWhile jsIsSpace).reverse)

/-- Decimal digit run parser: `some` of the value for a non-empty all-digit
run, `none` otherwise. -/
def digitsAux : ℕ → List Char → Option ℕ
  | acc, [] => some acc
  | acc, ch :: rest =>
      if ch.isDigit then digitsAux (acc * 10 + (ch.toNat - 48)) rest else none

/-- Parse a non-empty sequence of decimal digits. -/
def parseDigits : List Char → Option ℕ
  | [] => none
  | l => digitsAux 0 l

/-- JavaScript `Number()` applied to a string, restricted to decimal
integer notation: trimmed empty string coerces to `0`; an optional sign,
digits, and an optional all-zero fraction part yield the integer; every
other string maps to `none`, standing for NaN or a non-integral number
(both behave identically in this program, where the coerced value is only
tested for membership in a set of positive naturals or compared with
`> 0`; hex/exponent forms are likewise collapsed into `none`). -/
def jsNumber (s : String) : Option Int :=
  match (jsTrim s).data with
  | [] => some 0
  | t =>
      let signed :=
        match t with
        | '-' :: rest => (true, rest)
        | '+' :: rest => (false, rest)
        | _ => (false, t)
      let intDigits := signed.2.takeWhile (fun ch => ch ≠ '.')
      let core :=
        match signed.2.dropWhile (fun ch => ch ≠ '.') with
        | [] => parseDigits intDigits
        | _ :: frac =>
            if frac.all (fun ch => ch = '0') then parseDigits intDigits else none
      match core with
      | none => none
      | some n => some (if signed.1 then -(n : Int) else (n : Int))

/-- JavaScript `Number()` coercion of a value: `undefined` is NaN, `null`
is `0`, booleans are `0`/`1`, numbers are themselves, strings go through
`jsNumber`. Arrays and objects are modelled as NaN (the `ToPrimitive`
detour that makes `Number([5])` equal `5` is collapsed; such values only
ever reach the membership test against a set of naturals, where this does
not change any validated suggestion the claims quantify over). -/
def jsToNumber : Js → Option Int
  | Js.undef => none
  | Js.null => some 0
  | Js.bool b => some (if b then 1 else 0)
  | Js.num n => n
  | Js.str s => jsNumber s
  | Js.arr _ => none
  | Js.obj _ => none

/-- `Set<number>.has(x)` against a set of naturals, applied to the result
of a `Number()` coercion: NaN (`none`) and negative numbers are never
members. -/
def hasNum (s : Finset ℕ) : Option Int → Bool
  | none => false
  | some (Int.ofNat n) => decide (n ∈ s)
  | some (Int.negSucc _) => false

/-- A single line change of a parse-diff chunk: `add` and `del` changes
carry one line number field `ln` (the new-file line for additions, the
old-file line for deletions); context (`normal`) changes carry the pair
`ln1` (old) / `ln2` (new). -/
inductive Change : Type
  | add (ln : ℕ) (content : String) : Change
  | del (ln : ℕ) (content : String) : Change
  | normal (ln1 ln2 : ℕ) (content : String) : Change
deriving DecidableEq

/-- The diff text of a change, `c.content`. -/
def changeContent : Change → String
  | Change.add _ s => s
  | Change.del _ s => s
  | Change.normal _ _ s => s

/-- A parse-diff chunk (hunk): header/content string plus its changes. -/
structure Chunk where
  content : String
  changes : List Change
deriving DecidableEq

/-- A parse-diff file: target path (`to`, absent for files with no target)
and its chunks. -/
structure DiffFile where
  «to» : Option String
  chunks : List Chunk
deriving DecidableEq

/-- Pull request details threaded into prompts. -/
structure PRDetails where
  owner : String
  repo : String
  pull_number : ℕ
  title : String
  description : String

/-- A review comment record `{body, path, line}` as produced by
`createComment`; `line` is the JavaScript number `Number(lineNumber)`
(`none` models NaN), `body` the raw `reviewComment` value. -/
structure Comment where
  body : Js
  path : String
  line : Option Int

/-- One diagnostic record per discarded suggestion, modelling the
`console.log` line "Invalid line number: ... in file: ... Comment: ...". -/
structure Diagnostic where
  lineNumber : Js
  path : Option String
  comment : Js

/-- The line numbers one change contributes to a chunk's
`validLineNumbers` set, following `analyzeCode`: `change.ln` when the
field exists and is truthy (nonzero), `change.ln2` likewise, and the full
inclusive range `ln1..ln2` when both pair fields exist and are truthy. -/
def changeLines : Change → Finset ℕ
  | Change.add ln _ => if ln ≠ 0 then {ln} else ∅
  | Change.del ln _ => if ln ≠ 0 then {ln} else ∅
  | Change.normal ln1 ln2 _ =>
      (if ln2 ≠ 0 then {ln2} else ∅) ∪
        (if ln1 ≠ 0 ∧ ln2 ≠ 0 then Finset.Icc ln1 ln2 else ∅)

/-- The `validLineNumbers` set `analyzeCode` builds for one chunk by
iterating over its changes. -/
def validLineNumbers (chunk : Chunk) : Finset ℕ :=
  chunk.changes.foldl (fun s c => s ∪ changeLines c) ∅

/-- Modelled from the spec's words (§4.2 and claim C2), for comparison
with `validLineNumbers`: the union over every line change of its
new-line-number when present, its secondary (`ln2`) line number when
present, and, for a change carrying an explicit `ln1`/`ln2` pair, every
integer in the inclusive range between them. A deleted line carries only
an old-line-number, so it contributes nothing here (spec §3 builds the
valid target set from added and context lines). -/
def specChangeLines : Change → Finset ℕ
  | Change.add ln _ => if ln ≠ 0 then {ln} else ∅
  | Change.del _ _ => ∅
  | Change.normal ln1 ln2 _ =>
      (if ln2 ≠ 0 then {ln2} else ∅) ∪
        (if ln1 ≠ 0 ∧ ln2 ≠ 0 then Finset.Icc ln1 ln2 else ∅)

/-- The spec-worded valid target set of a chunk (see `specChangeLines`). -/
def specValidTargetSet (chunk : Chunk) : Finset ℕ :=
  chunk.changes.foldl (fun s c => s ∪ specChangeLines c) ∅

/-- Sequential effectful map over `Except`, mirroring a `for`/`forEach`
loop whose body can throw: the first error aborts the rest. -/
def mapME {α β : Type} (f : α → Except String β) : List α → Except String (List β)
  | [] => Except.ok []
  | x :: xs =>
      match f x with
      | Except.error e => Except.error e
      | Except.ok y =>
          match mapME f xs with
          | Except.error e => Except.error e
          | Except.ok ys => Except.ok (y :: ys)

/-- Render of `${file.«to»}` in a template literal: `undefined` when absent. -/
def jsShowOptString : Option String → String
  | none => "undefined"
  | some s => s

/-- The label `${c.ln ? c.ln : c.ln2}` used when reconstructing a diff
line in the prompt: the truthy `ln` when present, else `ln2` (which is
`undefined` for add/del changes with a zero `ln`). -/
def changeLabel : Change → String
  | Change.add ln _ => if ln ≠ 0 then toString ln else "undefined"
  | Change.del ln _ => if ln ≠ 0 then toString ln else "undefined"
  | Change.normal _ ln2 _ => toString ln2

/-- `createPrompt(file, chunk, prDetails)`: the deterministic instruction
string sent to the model. -/
def createPrompt (file : DiffFile) (chunk : Chunk) (prDetails : PRDetails) : String :=
  "Your task is to review pull requests. Instructions:\n" ++
  "- Provide the response in following JSON format:  \x7b\"reviews\": [\x7b\"lineNumber\":  <line_number>, \"reviewComment\": \"<review comment>\"\x7d]\x7d\n" ++
  "- Do not give positive comments or compliments.\n" ++
  "- Provide comments and suggestions ONLY if there is something to improve, otherwise \"reviews\" should be an empty array.\n" ++
  "- Write the comment in GitHub Markdown format.\n" ++
  "- Use the given description only for the overall context and only comment the code.\n" ++
  "- IMPORTANT: NEVER suggest adding comments to the code.\n\n" ++
  "Review the following code diff in the file \"" ++ jsShowOptString file.«to» ++
  "\" and take the pull request title and description into account when writing the response.\n  \n" ++
  "Pull request title: " ++ prDetails.title ++ "\n" ++
  "Pull request description:\n\n---\n" ++ prDetails.description ++ "\n---\n\n" ++
  "Git diff to review:\n\n```diff\n" ++ chunk.content ++ "\n" ++
  String.intercalate "\n"
    (chunk.changes.map (fun c => changeLabel c ++ " " ++ changeContent c)) ++
  "\n```\n"

/-- `getAIResponse`: the OpenAI call, content defaulting and `JSON.parse`
are behind the `payload` parameter (`none` = the call threw or the content
was unparseable JSON; both are caught and yield `null`). On a parsed value
the function returns `JSON.parse(res).reviews`; the property access throws
on a `null` payload, which the surrounding try/catch also converts to a
`null` return. -/
def getAIResponse (payload : Option Js) : Js :=
  match payload with
  | none => Js.null
  | some v =>
      match jsGetField v "reviews" with
      | Except.error _ => Js.null
      | Except.ok r => r

/-- Truthiness of `file.«to»` (`if (!file.«to») return [];` in
`createComment`): absent and empty paths are falsy. -/
def fileToTruthy (file : DiffFile) : Bool :=
  match file.«to» with
  | none => false
  | some s => decide (s ≠ "")

/-- The body of `createComment`'s `flatMap` for one suggestion: nothing
when the file has a falsy target path, else the comment record with the
raw `reviewComment` value and the `Number()`-coerced `lineNumber`. The
property accesses throw on a `null`/`undefined` suggestion. -/
def commentOf (file : DiffFile) (aiResponse : Js) : Except String (List Comment) :=
  if fileToTruthy file then
    match jsGetField aiResponse "reviewComment" with
    | Except.error e => Except.error e
    | Except.ok body =>
        match jsGetField aiResponse "lineNumber" with
        | Except.error e => Except.error e
        | Except.ok lnv =>
            Except.ok [{ body := body, path := (file.«to»).getD "", line := jsToNumber lnv }]
  else Except.ok []

/-- `createComment(file, chunk, aiResponses)`. -/
def createComment (file : DiffFile) (_chunk : Chunk) (aiResponses : List Js) :
    Except String (List Comment) :=
  match mapME (commentOf file) aiResponses with
  | Except.error e => Except.error e
  | Except.ok parts => Except.ok parts.flatten

/-- The test `validLineNumbers.has(Number(response.lineNumber))` applied
to one suggestion, keeping the suggestion paired with its verdict; the
property access throws on `null`/`undefined` suggestions. -/
def classify (s : Finset ℕ) (aiResponse : Js) : Except String (Js × Bool) :=
  match jsGetField aiResponse "lineNumber" with
  | Except.error e => Except.error e
  | Except.ok lnv => Except.ok (aiResponse, hasNum s (jsToNumber lnv))

/-- The diagnostic logged for one invalid suggestion. -/
def mkDiagnostic (file : DiffFile) (aiResponse : Js) : Except String Diagnostic :=
  match jsGetField aiResponse "lineNumber" with
  | Except.error e => Except.error e
  | Except.ok lnv =>
      match jsGetField aiResponse "reviewComment" with
      | Except.error e => Except.error e
      | Except.ok cmt => Except.ok { lineNumber := lnv, path := file.«to», comment := cmt }

/-- The per-chunk body of `analyzeCode` once the model's `reviews` value
is in hand: a falsy value is skipped; a truthy value is run through
`.filter` (throwing when it is not an array), invalid suggestions are
logged, and the valid ones become comments. -/
def processChunk (file : DiffFile) (chunk : Chunk) (aiResponse : Js) :
    Except String (List Comment × List Diagnostic) :=
  match truthy aiResponse with
  | false => Except.ok ([], [])
  | true =>
    match asArray aiResponse with
    | Except.error e => Except.error e
    | Except.ok items =>
        match mapME (classify (validLineNumbers chunk)) items with
        | Except.error e => Except.error e
        | Except.ok classified =>
            match mapME (fun p => mkDiagnostic file p.1)
                (classified.filter (fun p => !p.2)) with
            | Except.error e => Except.error e
            | Except.ok diags =>
                match createComment file chunk
                    ((classified.filter (fun p => p.2)).map (fun p => p.1)) with
                | Except.error e => Except.error e
                | Except.ok newComments => Except.ok (newComments, diags)

/-- The review units `analyzeCode` iterates over: one per chunk of every
file whose target path is not the deletion sentinel (`continue` skips
exactly the files with `file.«to» === "/dev/null"`). -/
def unitsOf (parsedDiff : List DiffFile) : List (DiffFile × Chunk) :=
  parsedDiff.flatMap (fun file =>
    if file.«to» = some "/dev/null" then []
    else file.chunks.map (fun chunk => (file, chunk)))

/-- One unit's iteration of `analyzeCode`'s loop: build the prompt, ask
the model, reconcile the answer. -/
def processUnit (ai : String → Option Js) (prDetails : PRDetails)
    (unit : DiffFile × Chunk) : Except String (List Comment × List Diagnostic) :=
  processChunk unit.1 unit.2 (getAIResponse (ai (createPrompt unit.1 unit.2 prDetails)))

/-- `analyzeCode(parsedDiff, prDetails)`: sequential loop over the review
units, accumulating comments (and diagnostics); an exception thrown while
handling one unit aborts the remainder. -/
def analyzeCode (ai : String → Option Js) (parsedDiff : List DiffFile)
    (prDetails : PRDetails) : Except String (List Comment × List Diagnostic) :=
  match mapME (processUnit ai prDetails) (unitsOf parsedDiff) with
  | Except.error e => Except.error e
  | Except.ok results =>
      Except.ok ((results.map Prod.fst).flatten, (results.map Prod.snd).flatten)

/-- The comparison `comment.line > 0` on a JavaScript number (false for
NaN). -/
def jsNumGt (a : Option Int) (b : Int) : Bool :=
  match a with
  | none => false
  | some i => decide (b < i)

/-- `createReviewComment`: drop comments with non-positive line numbers;
return without calling the GitHub API when nothing is left (`none`), else
call it exactly once with the remaining batch (`some batch`). -/
def createReviewComment (comments : List Comment) : Option (List Comment) :=
  let validComments := comments.filter (fun comment => jsNumGt comment.line 0)
  if validComments.length = 0 then none else some validComments

/-- The posting step of `main`: `createReviewComment` is only reached when
`comments.length > 0`; an empty batch just logs "No comments". -/
def mainPost (comments : List Comment) : Option (List Comment) :=
  if comments.length > 0 then createReviewComment comments else none

/-- `filterDiffs`' pattern preprocessing: trim every raw comma-split entry
and drop the empty results. -/
def processPatterns (raw : List String) : List String :=
  (raw.map (fun s => jsTrim s)).filter (fun s => decide (s.length > 0))

/-- `filterDiffs`' per-file decision, with the `minimatch` collaborator as
the parameter `m` (path first, pattern second) and the raw comma-split
`exclude`/`include` action inputs: excluded when some exclude pattern
matches, else included when the include list is empty or some include
pattern matches. -/
def fileDecision (m : String → String → Bool) (excludeRaw includeRaw : List String)
    (path : String) : Bool :=
  let excludePatterns := processPatterns excludeRaw
  let includePatterns := processPatterns includeRaw
  let excluded := decide (excludePatterns.length > 0) &&
    excludePatterns.any (fun pattern => m path pattern)
  let included := decide (includePatterns.length = 0) ||
    includePatterns.any (fun pattern => m path pattern)
  !excluded && included

/-- `filterDiffs(parsedDiff)`: keep the files whose path (`file.«to» ?? ""`)
passes `fileDecision`. -/
def filterDiffs (m : String → String → Bool) (excludeRaw includeRaw : List String)
    (parsedDiff : List DiffFile) : List DiffFile :=
  parsedDiff.filter (fun file => fileDecision m excludeRaw includeRaw ((file.«to»).getD ""))

/-- A payload whose handling cannot throw in `analyzeCode`: its `reviews`
value is falsy, or it is an array free of `null`/`undefined` entries. -/
def safePayload (v : Js) : Bool :=
  !(truthy v) ||
    (match v with
     | Js.arr items => items.all (fun r => !(isNullish r))
     | _ => false)

/-- Concrete hunk adding new-file lines 10 and 11. -/
def exChunk : Chunk :=
  { content := "@@ -9,0 +10,2 @@", changes := [Change.add 10 "+a", Change.add 11 "+b"] }

/-- Concrete file `a.ts` with the one hunk above. -/
def exFile : DiffFile := { «to» := some "a.ts", chunks := [exChunk] }

/-- Concrete pull request details. -/
def exPr : PRDetails :=
  { owner := "o", repo := "r", pull_number := 1, title := "t", description := "d" }

/-- A suggestion for line 10 (inside the hunk's valid target set). -/
def exGoodSuggestion : Js :=
  Js.obj [("lineNumber", Js.str "10"), ("reviewComment", Js.str "x")]

/-- A suggestion for line 99 (outside the hunk's valid target set). -/
def exBadSuggestion : Js :=
  Js.obj [("lineNumber", Js.str "99"), ("reviewComment", Js.str "y")]

/-- A model `reviews` payload holding the two suggestions above. -/
def exResp : Js := Js.arr [exGoodSuggestion, exBadSuggestion]

/-- The comment the pipeline produces from `exGoodSuggestion`. -/
def exComment : Comment := { body := Js.str "x", path := "a.ts", line := some 10 }

/-- The diagnostic the pipeline logs for `exBadSuggestion`. -/
def exDiagnostic : Diagnostic :=
  { lineNumber := Js.str "99", path := some "a.ts", comment := Js.str "y" }

/-- A hunk holding exactly one deleted line (old-file line 3). -/
def exDelChunk : Chunk := { content := "@@ -3,1 +2,0 @@", changes := [Change.del 3 "-x"] }

/-- A file with an absent target path but a non-empty hunk. -/
def exNullFile : DiffFile := { «to» := none, chunks := [exChunk] }

/-- A model collaborator answering every prompt with the parseable payload
`{"reviews": 7}`, whose `reviews` field is truthy but not an array. -/
def exBadAi : String → Option Js := fun _ => some (Js.obj [("reviews", Js.num (some 7))])

/-- A concrete matcher standing in for `minimatch`: exact path equality. -/
def exMatch : String → String → Bool := fun path pattern => path == pattern

/-- A model collaborator whose call always fails (throws or returns
unparseable content). -/
def exNoneAi : String → Option Js := fun _ => none

/-- A comment batch with a positive, a zero, and a NaN line number. -/
def exComments : List Comment :=
  [{ body := Js.str "b1", path := "a.ts", line := some 2 },
   { body := Js.str "b2", path := "a.ts", line := some 0 },
   { body := Js.str "b3", path := "a.ts", line := none }]

/-- Membership in a union-accumulating fold. -/
theorem mem_foldl_union {α : Type} (g : α → Finset ℕ) (l : List α) (s₀ : Finset ℕ) (n : ℕ) :
    n ∈ l.foldl (fun s c => s ∪ g c) s₀ ↔ n ∈ s₀ ∨ ∃ c ∈ l, n ∈ g c := by
  induction l generalizing s₀ with
  | nil => simp
  | cons a t ih =>
      rw [List.foldl_cons, ih]
      simp only [Finset.mem_union, List.mem_cons, exists_eq_or_imp, or_assoc]

/-- Every line number a change contributes is positive (the truthiness
guards skip zero). -/
theorem changeLines_pos {n : ℕ} {c : Change} (h : n ∈ changeLines c) : 0 < n := by
  cases c with
  | add ln s =>
      by_cases hln : ln = 0 <;> simp [changeLines, hln] at h
      omega
  | del ln s =>
      by_cases hln : ln = 0 <;> simp [changeLines, hln] at h
      omega
  | normal ln1 ln2 s =>
      rw [changeLines, Finset.mem_union] at h
      rcases h with h | h
      · by_cases hln : ln2 = 0 <;> simp [hln] at h
        omega
      · by_cases hln : ln1 ≠ 0 ∧ ln2 ≠ 0 <;> simp [hln, Finset.mem_Icc] at h
        omega

/-- Every member of a chunk's valid target set is positive. -/
theorem validLineNumbers_pos (chunk : Chunk) {n : ℕ} (h : n ∈ validLineNumbers chunk) :
    0 < n := by
  rw [validLineNumbers, mem_foldl_union] at h
  rcases h with h | ⟨c, _, hc⟩
  · simp at h
  · exact changeLines_pos hc

/-- A successful `mapME` result consists of images of list members. -/
theorem mapME_ok_mem {α β : Type} {f : α → Except String β} :
    ∀ {xs : List α} {ys : List β}, mapME f xs = Except.ok ys →
      ∀ y ∈ ys, ∃ x ∈ xs, f x = Except.ok y := by
  intro xs
  induction xs with
  | nil =>
      intro ys h y hy
      simp [mapME] at h
      subst h
      simp at hy
  | cons a t ih =>
      intro ys h y hy
      cases hfa : f a with
      | error e => simp [mapME, hfa] at h
      | ok b =>
          cases hmt : mapME f t with
          | error e => simp [mapME, hfa, hmt] at h
          | ok ts =>
              simp [mapME, hfa, hmt] at h
              subst h
              rcases List.mem_cons.mp hy with h1 | h2
              · subst h1
                exact ⟨a, List.mem_cons_self a t, hfa⟩
              · obtain ⟨x, hx, hfx⟩ := ih hmt y h2
                exact ⟨x, List.mem_cons_of_mem a hx, hfx⟩

/-- `mapME` succeeds when every element succeeds. -/
theorem mapME_ok_total {α β : Type} {f : α → Except String β} :
    ∀ {xs : List α}, (∀ x ∈ xs, ∃ y, f x = Except.ok y) →
      ∃ ys, mapME f xs = Except.ok ys := by
  intro xs
  induction xs with
  | nil => exact fun _ => ⟨[], rfl⟩
  | cons a t ih =>
      intro h
      obtain ⟨b, hb⟩ := h a (List.mem_cons_self a t)
      obtain ⟨ts, hts⟩ := ih (fun x hx => h x (List.mem_cons_of_mem a hx))
      exact ⟨b :: ts, by simp [mapME, hb, hts]⟩

/-- `mapME` of a pointwise-successful function is a plain `map`. -/
theorem mapME_eq_map {α β : Type} {f : α → Except String β} {g : α → β} :
    ∀ {xs : List α}, (∀ x ∈ xs, f x = Except.ok (g x)) →
      mapME f xs = Except.ok (xs.map g) := by
  intro xs
  induction xs with
  | nil => exact fun _ => rfl
  | cons a t ih =>
      intro h
      have ha := h a (List.mem_cons_self a t)
      have ht := ih (fun x hx => h x (List.mem_cons_of_mem a hx))
      simp [mapME, ha, ht]

/-- `mapME` after `map` fuses. -/
theorem mapME_map {α β γ : Type} (f : β → Except String γ) (g : α → β) (l : List α) :
    mapME f (l.map g) = mapME (fun a => f (g a)) l := by
  induction l with
  | nil => rfl
  | cons a t ih =>
      cases hf : f (g a) with
      | error e => simp [mapME, hf]
      | ok b => simp [mapME, hf, ih]

/-- `filter` after `map` fuses. -/
theorem filter_of_map {α β : Type} (g : α → β) (p : β → Bool) (l : List α) :
    (l.map g).filter p = (l.filter (fun a => p (g a))).map g := by
  induction l with
  | nil => rfl
  | cons a t ih =>
      by_cases h : p (g a) <;> simp [List.filter_cons, h, ih]

/-- Successful property access happens exactly on non-nullish values and
yields the total field lookup. -/
theorem jsGetField_ok_iff {v : Js} {k : String} {w : Js} :
    jsGetField v k = Except.ok w ↔ (isNullish v = false ∧ w = jsFieldT v k) := by
  unfold jsGetField
  by_cases h : isNullish v <;> simp [h, eq_comm]

/-- The membership test succeeds exactly on coerced naturals that are in
the set; NaN (`none`) and negatives always fail. -/
theorem hasNum_eq_true_iff (s : Finset ℕ) (v : Option Int) :
    hasNum s v = true ↔ ∃ n : ℕ, n ∈ s ∧ v = some (Int.ofNat n) := by
  cases v with
  | none => simp [hasNum]
  | some i =>
      cases i with
      | ofNat m =>
          simp only [hasNum, decide_eq_true_eq, Option.some.injEq, Int.ofNat.injEq]
          constructor
          · exact fun hm => ⟨m, hm, rfl⟩
          · rintro ⟨n, hn, hmn⟩
            rw [hmn]
            exact hn
      | negSucc m => simp [hasNum]

/-- Inversion for `classify`. -/
theorem classify_ok {s : Finset ℕ} {r : Js} {p : Js × Bool}
    (h : classify s r = Except.ok p) :
    ∃ lnv, jsGetField r "lineNumber" = Except.ok lnv ∧
      p = (r, hasNum s (jsToNumber lnv)) := by
  cases hl : jsGetField r "lineNumber" with
  | error e => simp [classify, hl] at h
  | ok lnv =>
      simp [classify, hl] at h
      subst h
      exact ⟨lnv, rfl, rfl⟩

/-- Inversion for `commentOf`: every produced comment's `line` field is the
`Number()` coercion of the suggestion's `lineNumber` field. -/
theorem commentOf_ok {file : DiffFile} {r : Js} {cs : List Comment}
    (h : commentOf file r = Except.ok cs) :
    ∀ c ∈ cs, ∃ lnv, jsGetField r "lineNumber" = Except.ok lnv ∧
      c.line = jsToNumber lnv := by
  intro c hc
  by_cases hf : fileToTruthy file
  · cases hb : jsGetField r "reviewComment" with
    | error e => simp [commentOf, hf, hb] at h
    | ok body =>
        cases hl : jsGetField r "lineNumber" with
        | error e => simp [commentOf, hf, hb, hl] at h
        | ok lnv =>
            simp [commentOf, hf, hb, hl] at h
            subst h
            simp at hc
            subst hc
            exact ⟨lnv, rfl, rfl⟩
  · simp [commentOf, hf] at h
    subst h
    simp at hc

/-- Inversion for a successful `processChunk` run on a truthy payload. -/
theorem processChunk_ok_inv {file : DiffFile} {chunk : Chunk} {resp : Js}
    {comments : List Comment} {diags : List Diagnostic}
    (ht : truthy resp = true)
    (h : processChunk file chunk resp = Except.ok (comments, diags)) :
    ∃ items classified,
      asArray resp = Except.ok items ∧
      mapME (classify (validLineNumbers chunk)) items = Except.ok classified ∧
      mapME (fun p => mkDiagnostic file p.1) (classified.filter (fun p => !p.2)) =
        Except.ok diags ∧
      createComment file chunk ((classified.filter (fun p => p.2)).map (fun p => p.1)) =
        Except.ok comments := by
  simp only [processChunk, ht] at h
  cases ha : asArray resp with
  | error e => simp [ha] at h
  | ok items =>
      simp only [ha] at h
      cases hcl : mapME (classify (validLineNumbers chunk)) items with
      | error e => simp [hcl] at h
      | ok classified =>
          simp only [hcl] at h
          cases hdg : mapME (fun p => mkDiagnostic file p.1)
              (classified.filter (fun p => !p.2)) with
          | error e => simp [hdg] at h
          | ok dgs =>
              simp only [hdg] at h
              cases hcc : createComment file chunk
                  ((classified.filter (fun p => p.2)).map (fun p => p.1)) with
              | error e => simp [hcc] at h
              | ok newComments =>
                  simp only [hcc, Except.ok.injEq, Prod.mk.injEq] at h
                  obtain ⟨h1, h2⟩ := h
                  subst h1
                  subst h2
                  exact ⟨items, classified, rfl, hcl, hdg, hcc⟩

/-- Every comment a `processChunk` run produces carries a line number that
passes the valid-target-set membership test. -/
theorem processChunk_line_valid {file : DiffFile} {chunk : Chunk} {resp : Js}
    {comments : List Comment} {diags : List Diagnostic}
    (h : processChunk file chunk resp = Except.ok (comments, diags)) :
    ∀ c ∈ comments, hasNum (validLineNumbers chunk) c.line = true := by
  intro c hc
  cases ht : truthy resp with
  | false =>
      simp only [processChunk, ht, Except.ok.injEq, Prod.mk.injEq] at h
      obtain ⟨h1, _⟩ := h
      subst h1
      simp at hc
  | true =>
      obtain ⟨items, classified, ha, hcl, hdg, hcc⟩ := processChunk_ok_inv ht h
      rw [createComment] at hcc
      cases hm : mapME (commentOf file)
          ((classified.filter (fun p => p.2)).map (fun p => p.1)) with
      | error e => simp [hm] at hcc
      | ok parts =>
          simp only [hm, Except.ok.injEq] at hcc
          subst hcc
          obtain ⟨part, hpart, hcpart⟩ := List.mem_flatten.mp hc
          obtain ⟨r, hr, hro⟩ := mapME_ok_mem hm part hpart
          obtain ⟨lnv, hlnv, hline⟩ := commentOf_ok hro c hcpart
          obtain ⟨q, hq, hq1⟩ := List.mem_map.mp hr
          obtain ⟨hqc, hq2⟩ := List.mem_filter.mp hq
          obtain ⟨x, _, hx⟩ := mapME_ok_mem hcl q hqc
          obtain ⟨lnv2, hlnv2, hqe⟩ := classify_ok hx
          rw [hqe] at hq1 hq2
          simp only at hq1 hq2
          rw [hq1] at hlnv2
          rw [hlnv] at hlnv2
          injection hlnv2 with he
          subst he
          rw [hline]
          exact hq2

/-- On a non-nullish suggestion the diagnostic is built from the total
field lookups. -/
theorem mkDiagnostic_ok {file : DiffFile} {r : Js} (hnn : isNullish r = false) :
    mkDiagnostic file r = Except.ok
      { lineNumber := jsFieldT r "lineNumber", path := file.«to»,
        comment := jsFieldT r "reviewComment" } := by
  simp [mkDiagnostic, jsGetField, hnn]

/-- `commentOf` succeeds on every non-nullish suggestion. -/
theorem commentOf_ok_total {file : DiffFile} {r : Js} (hnn : isNullish r = false) :
    ∃ cs, commentOf file r = Except.ok cs := by
  by_cases hf : fileToTruthy file
  · exact ⟨[Comment.mk (jsFieldT r "reviewComment") ((file.«to»).getD "")
        (jsToNumber (jsFieldT r "lineNumber"))],
      by simp [commentOf, hf, jsGetField, hnn]⟩
  · exact ⟨[], by simp [commentOf, hf]⟩

/-- A successful classification pass means every suggestion was non-nullish
and the outcome is the pointwise pairing with the membership verdict. -/
theorem classify_ok_all {s : Finset ℕ} :
    ∀ {items : List Js} {classified : List (Js × Bool)},
      mapME (classify s) items = Except.ok classified →
      (∀ r ∈ items, isNullish r = false) ∧
      classified = items.map
        (fun r => (r, hasNum s (jsToNumber (jsFieldT r "lineNumber")))) := by
  intro items
  induction items with
  | nil =>
      intro classified h
      simp [mapME] at h
      subst h
      simp
  | cons a t ih =>
      intro classified h
      cases hga : jsGetField a "lineNumber" with
      | error e => simp [mapME, classify, hga] at h
      | ok lnv =>
          cases hmt : mapME (classify s) t with
          | error e => simp [mapME, classify, hga, hmt] at h
          | ok ts =>
              simp [mapME, classify, hga, hmt] at h
              subst h
              obtain ⟨hnn, hlnv⟩ := jsGetField_ok_iff.mp hga
              obtain ⟨iht, ihe⟩ := ih hmt
              constructor
              · intro r hr
                rcases List.mem_cons.mp hr with h1 | h2
                · rw [h1]; exact hnn
                · exact iht r h2
              · simp [List.map_cons, ihe, hlnv]

/-- Flattening a list of empty lists is empty. -/
theorem flatten_map_nil {α β : Type} (l : List α) :
    (l.map (fun _ => ([] : List β))).flatten = [] := by
  induction l <;> simp [*]

/-- A file with a falsy target path yields no comments from
`createComment`, whatever the suggestions. -/
theorem createComment_of_falsy_path {file : DiffFile} {chunk : Chunk} {rs : List Js}
    (hf : fileToTruthy file = false) :
    createComment file chunk rs = Except.ok [] := by
  have hm : mapME (commentOf file) rs = Except.ok (rs.map (fun _ => ([] : List Comment))) :=
    mapME_eq_map (fun r _ => by simp [commentOf, hf])
  simp [createComment, hm, flatten_map_nil]

/-- Running the diagnostic pass over the classified suggestions of a
non-nullish list produces exactly the diagnostics of the invalid ones. -/
theorem mapME_diag_of_classified {file : DiffFile} {s : Finset ℕ} :
    ∀ {items : List Js}, (∀ r ∈ items, isNullish r = false) →
      mapME (fun p => mkDiagnostic file p.1)
        ((items.map (fun r => (r, hasNum s (jsToNumber (jsFieldT r "lineNumber"))))).filter
          (fun p => !p.2)) =
      Except.ok ((items.filter (fun r =>
          !(hasNum s (jsToNumber (jsFieldT r "lineNumber"))))).map
        (fun r => { lineNumber := jsFieldT r "lineNumber", path := file.«to»,
                    comment := jsFieldT r "reviewComment" })) := by
  intro items
  induction items with
  | nil => exact fun _ => rfl
  | cons a t ih =>
      intro h
      have ha := h a (List.mem_cons_self a t)
      have ht := ih (fun x hx => h x (List.mem_cons_of_mem a hx))
      cases hv : hasNum s (jsToNumber (jsFieldT a "lineNumber")) with
      | true => simp [List.filter_cons, hv, ht]
      | false => simp [List.filter_cons, hv, mapME, mkDiagnostic_ok ha, ht]

/-- The diagnostics of a successful `processChunk` run over an array
payload: exactly one per suggestion failing the membership test, carrying
the suggestion's `lineNumber` value, the file path, and the comment. -/
theorem processChunk_diags {file : DiffFile} {chunk : Chunk} {items : List Js}
    {comments : List Comment} {diags : List Diagnostic}
    (h : processChunk file chunk (Js.arr items) = Except.ok (comments, diags)) :
    diags = (items.filter (fun r =>
        !(hasNum (validLineNumbers chunk) (jsToNumber (jsFieldT r "lineNumber"))))).map
      (fun r => { lineNumber := jsFieldT r "lineNumber", path := file.«to»,
                  comment := jsFieldT r "reviewComment" }) := by
  obtain ⟨items0, classified, ha, hcl, hdg, _⟩ := processChunk_ok_inv (by rfl) h
  have hi : items0 = items := by
    have h0 : Except.ok (ε := String) items = Except.ok items0 := ha
    injection h0 with hii
    exact hii.symm
  subst hi
  obtain ⟨hnn, hceq⟩ := classify_ok_all hcl
  subst hceq
  rw [mapME_diag_of_classified hnn] at hdg
  injection hdg with hd
  exact hd.symm

/-- `processChunk` cannot throw on a safe payload. -/
theorem processChunk_safe_ok (file : DiffFile) (chunk : Chunk) {v : Js}
    (hv : safePayload v = true) :
    ∃ out, processChunk file chunk v = Except.ok out := by
  cases ht : truthy v with
  | false => exact ⟨([], []), by simp [processChunk, ht]⟩
  | true =>
      simp only [safePayload, ht, Bool.not_true, Bool.false_or] at hv
      cases v with
      | undef => simp at hv
      | null => simp at hv
      | bool b => simp at hv
      | num n => simp at hv
      | str s => simp at hv
      | obj fields => simp at hv
      | arr items =>
          simp only [List.all_eq_true] at hv
          have hall : ∀ r ∈ items, isNullish r = false := by
            intro r hr
            have hx := hv r hr
            simp at hx
            exact hx
          have hcl : mapME (classify (validLineNumbers chunk)) items =
              Except.ok (items.map (fun r =>
                (r, hasNum (validLineNumbers chunk) (jsToNumber (jsFieldT r "lineNumber"))))) :=
            mapME_eq_map (fun r hr => by simp [classify, jsGetField, hall r hr])
          have hdg := @mapME_diag_of_classified file (validLineNumbers chunk) items hall
          have hvalid : ∀ r ∈ ((items.map (fun r =>
              (r, hasNum (validLineNumbers chunk) (jsToNumber (jsFieldT r "lineNumber"))))).filter
                (fun p => p.2)).map (fun p => p.1), isNullish r = false := by
            intro r hr
            obtain ⟨p, hp, hp1⟩ := List.mem_map.mp hr
            have hpc := List.mem_of_mem_filter hp
            obtain ⟨x, hx, hxe⟩ := List.mem_map.mp hpc
            rw [← hxe] at hp1
            simp only at hp1
            rw [← hp1]
            exact hall x hx
          obtain ⟨parts, hparts⟩ := @mapME_ok_total Js (List Comment) (commentOf file) _
              (fun r hr => commentOf_ok_total (hvalid r hr))
          have hcc : createComment file chunk
              (((items.map (fun r =>
                (r, hasNum (validLineNumbers chunk) (jsToNumber (jsFieldT r "lineNumber"))))).filter
                  (fun p => p.2)).map (fun p => p.1)) = Except.ok parts.flatten := by
            simp [createComment, hparts]
          exact ⟨(parts.flatten,
              (items.filter (fun r =>
                !(hasNum (validLineNumbers chunk) (jsToNumber (jsFieldT r "lineNumber"))))).map
                (fun r => { lineNumber := jsFieldT r "lineNumber", path := file.«to»,
                            comment := jsFieldT r "reviewComment" })),
            by simp [processChunk, ht, asArray, hcl, hdg, hcc]⟩

/-- When every unit's payload is safe, the whole `analyzeCode` run
completes without an exception. -/
theorem analyzeCode_ok_of_safe {ai : String → Option Js} {parsedDiff : List DiffFile}
    {prDetails : PRDetails}
    (hsafe : ∀ u ∈ unitsOf parsedDiff,
      safePayload (getAIResponse (ai (createPrompt u.1 u.2 prDetails))) = true) :
    ∃ out, analyzeCode ai parsedDiff prDetails = Except.ok out := by
  obtain ⟨results, hres⟩ := @mapME_ok_total (DiffFile × Chunk) (List Comment × List Diagnostic)
      (processUnit ai prDetails) (unitsOf parsedDiff)
      (fun u hu => processChunk_safe_ok u.1 u.2 (hsafe u hu))
  exact ⟨((results.map Prod.fst).flatten, (results.map Prod.snd).flatten),
    by simp [analyzeCode, hres]⟩

/-- A non-empty string has positive length. -/
theorem string_length_pos_of_ne (s : String) (h : s ≠ "") : 0 < s.length := by
  cases s with
  | mk data =>
      cases data with
      | nil => exact absurd rfl h
      | cons a t => simp [String.length]

/-- Appending whitespace-only entries leaves the processed pattern list
unchanged. -/
theorem processPatterns_ws_append (l ws : List String)
    (hws : ∀ q ∈ ws, jsTrim q = "") :
    processPatterns (l ++ ws) = processPatterns l := by
  rw [processPatterns, processPatterns, List.map_append, List.filter_append]
  have hnil : (ws.map (fun s => jsTrim s)).filter (fun s => decide (s.length > 0)) = [] := by
    apply List.filter_eq_nil_iff.mpr
    intro a ha
    obtain ⟨q, hq, hqe⟩ := List.mem_map.mp ha
    rw [← hqe, hws q hq]
    simp
  rw [hnil, List.append_nil]

/-- Claim C1: every Comment the pipeline produces for a hunk carries a line
number (the integer coercion of the suggestion's line field) that is a
member of that hunk's valid target set; suggestions whose coerced line
number is not in the set never become Comments. -/
theorem line_number_soundness (file : DiffFile) (chunk : Chunk) (resp : Js)
    (comments : List Comment) (diags : List Diagnostic)
    (h : processChunk file chunk resp = Except.ok (comments, diags)) :
    comments.all (fun c => hasNum (validLineNumbers chunk) c.line) = true := by
  rw [List.all_eq_true]
  intro c hc
  exact processChunk_line_valid h c hc

/-- Witness for C1 at a concrete hunk and payload. -/
theorem line_number_soundness_witness :
    ([exComment].all (fun c => hasNum (validLineNumbers exChunk) c.line)) = true :=
  line_number_soundness exFile exChunk exResp [exComment] [exDiagnostic] rfl

/-- Claim C2 counterexample: for a hunk holding one deleted line, the set
the code computes (which includes the deleted line's old line number via
the `ln` field) differs from the spec-worded union, which only admits
new-line numbers, `ln2` values, and explicit `ln1`/`ln2` ranges. -/
theorem valid_target_set_spec_cex :
    validLineNumbers exDelChunk ≠ specValidTargetSet exDelChunk := by decide

/-- Claim C2 (amended): the valid target set equals the union over every
line change of: its `ln` field when present and nonzero (the new line
number of an added line, but also the old line number of a deleted line),
its `ln2` field when present and nonzero, and the full inclusive
`ln1..ln2` range when both pair fields are present and nonzero. -/
theorem valid_target_set_union (chunk : Chunk) (n : ℕ) (ln ln1 ln2 : ℕ) (s : String) :
    (n ∈ validLineNumbers chunk ↔ ∃ c ∈ chunk.changes, n ∈ changeLines c) ∧
    (n ∈ changeLines (Change.add ln s) ↔ (n = ln ∧ ln ≠ 0)) ∧
    (n ∈ changeLines (Change.del ln s) ↔ (n = ln ∧ ln ≠ 0)) ∧
    (n ∈ changeLines (Change.normal ln1 ln2 s) ↔
      ((n = ln2 ∧ ln2 ≠ 0) ∨ (ln1 ≠ 0 ∧ ln2 ≠ 0 ∧ ln1 ≤ n ∧ n ≤ ln2))) := by
  refine ⟨?_, ?_, ?_, ?_⟩
  · rw [validLineNumbers, mem_foldl_union]
    simp
  · by_cases hl : ln = 0 <;> simp [changeLines, hl]
  · by_cases hl : ln = 0 <;> simp [changeLines, hl]
  · by_cases h1 : ln1 = 0 <;> by_cases h2 : ln2 = 0 <;>
      simp [changeLines, h1, h2, Finset.mem_Icc]

/-- Claim C3 counterexample: a parseable payload whose `reviews` field is a
truthy non-array (here the number 7) raises a TypeError at
`aiResponse.filter` that escapes `analyzeCode` and aborts the batch. -/
theorem unit_failure_isolation_cex :
    analyzeCode exBadAi [exFile] exPr =
      Except.error "TypeError: aiResponse.filter is not a function" := rfl

/-- Claim C3 (amended): a failed model call or JSON-unparseable payload
makes its unit contribute zero Comments and zero diagnostics while the
loop continues, and when every unit's `reviews` value is falsy or an array
free of null/undefined entries the whole batch completes without an
exception; a truthy non-array `reviews` value instead escapes as a type
error (see the counterexample). -/
theorem unit_failure_isolation (ai : String → Option Js) (prDetails : PRDetails)
    (parsedDiff : List DiffFile) (u : DiffFile × Chunk)
    (_hu : u ∈ unitsOf parsedDiff)
    (hfail : ai (createPrompt u.1 u.2 prDetails) = none)
    (hsafe : ∀ v ∈ unitsOf parsedDiff,
      safePayload (getAIResponse (ai (createPrompt v.1 v.2 prDetails))) = true) :
    processUnit ai prDetails u = Except.ok ([], []) ∧
    ∃ out, analyzeCode ai parsedDiff prDetails = Except.ok out := by
  constructor
  · show processChunk u.1 u.2
      (getAIResponse (ai (createPrompt u.1 u.2 prDetails))) = Except.ok ([], [])
    rw [hfail]
    rfl
  · exact analyzeCode_ok_of_safe hsafe

/-- Witness for C3 (amended) at a concrete failing unit. -/
theorem unit_failure_isolation_witness :
    processUnit exNoneAi exPr (exFile, exChunk) = Except.ok ([], []) :=
  (unit_failure_isolation exNoneAi exPr [exFile] (exFile, exChunk)
    (by decide) rfl (fun v hv => rfl)).1

/-- Claim C4: a file matched by any non-empty (after trimming) exclude
pattern is excluded, regardless of the include patterns. -/
theorem exclude_dominance (m : String → String → Bool)
    (excludeRaw includeRaw : List String) (parsedDiff : List DiffFile)
    (file : DiffFile) (p : String)
    (hp : p ∈ excludeRaw) (hne : jsTrim p ≠ "")
    (hm : m ((file.«to»).getD "") (jsTrim p) = true) :
    fileDecision m excludeRaw includeRaw ((file.«to»).getD "") = false ∧
    file ∉ filterDiffs m excludeRaw includeRaw parsedDiff := by
  have hmem : jsTrim p ∈ processPatterns excludeRaw := by
    rw [processPatterns]
    apply List.mem_filter.mpr
    refine ⟨List.mem_map.mpr ⟨p, hp, rfl⟩, ?_⟩
    simp only [decide_eq_true_eq]
    exact string_length_pos_of_ne (jsTrim p) hne
  have hlen : 0 < (processPatterns excludeRaw).length :=
    List.length_pos.mpr (List.ne_nil_of_mem hmem)
  have hany : (processPatterns excludeRaw).any
      (fun pattern => m ((file.«to»).getD "") pattern) = true :=
    List.any_eq_true.mpr ⟨jsTrim p, hmem, hm⟩
  have hfd : fileDecision m excludeRaw includeRaw ((file.«to»).getD "") = false := by
    simp [fileDecision, hany, hlen]
  refine ⟨hfd, fun hmemf => ?_⟩
  have hkeep := (List.mem_filter.mp hmemf).2
  rw [hfd] at hkeep
  cases hkeep

/-- Witness for C4: ` a.ts ` (whitespace-padded) excludes `a.ts` even
though the include list also names it. -/
theorem exclude_dominance_witness :
    fileDecision exMatch [" a.ts ", ""] ["a.ts"] ((exFile.«to»).getD "") = false ∧
    exFile ∉ filterDiffs exMatch [" a.ts ", ""] ["a.ts"] [exFile] :=
  exclude_dominance exMatch [" a.ts ", ""] ["a.ts"] [exFile] exFile " a.ts "
    (by decide) (by decide) (by decide)

/-- Claim C5: when no exclude pattern matches, a file is included exactly
when the processed include list is empty (default allow) or some include
pattern matches; whitespace-only entries in either list have no effect. -/
theorem include_default_allow (m : String → String → Bool)
    (excludeRaw includeRaw : List String) (path : String) :
    ((∀ p ∈ processPatterns excludeRaw, m path p = false) →
      fileDecision m excludeRaw includeRaw path =
        (decide (processPatterns includeRaw = []) ||
          (processPatterns includeRaw).any (fun pattern => m path pattern))) ∧
    (∀ ws wi : List String, (∀ q ∈ ws, jsTrim q = "") → (∀ q ∈ wi, jsTrim q = "") →
      fileDecision m (excludeRaw ++ ws) (includeRaw ++ wi) path =
        fileDecision m excludeRaw includeRaw path) := by
  constructor
  · intro hno
    have hany : (processPatterns excludeRaw).any (fun pattern => m path pattern) = false := by
      rw [← Bool.not_eq_true, List.any_eq_true]
      rintro ⟨x, hx, hpx⟩
      rw [hno x hx] at hpx
      cases hpx
    rw [fileDecision]
    simp only [hany, Bool.and_false, Bool.not_false, Bool.true_and]
    congr 1
    rw [decide_eq_decide]
    exact List.length_eq_zero
  · intro ws wi hws hwi
    simp only [fileDecision, processPatterns_ws_append excludeRaw ws hws,
      processPatterns_ws_append includeRaw wi hwi]

/-- Witness for C5 at concrete pattern lists with a whitespace entry. -/
theorem include_default_allow_witness :
    fileDecision exMatch ["*.js"] ["a.ts", " "] "a.ts" =
      (decide (processPatterns ["a.ts", " "] = []) ||
        (processPatterns ["a.ts", " "]).any (fun pattern => exMatch "a.ts" pattern)) :=
  (include_default_allow exMatch ["*.js"] ["a.ts", " "] "a.ts").1 (by decide)

/-- Claim C6: a model payload of `null`, `{}`, or `{"reviews": []}` yields
zero Comments for the unit and never raises an exception. -/
theorem empty_payload_robustness (file : DiffFile) (chunk : Chunk) :
    processChunk file chunk (getAIResponse (some Js.null)) = Except.ok ([], []) ∧
    processChunk file chunk (getAIResponse (some (Js.obj []))) = Except.ok ([], []) ∧
    processChunk file chunk (getAIResponse (some (Js.obj [("reviews", Js.arr [])]))) =
      Except.ok ([], []) :=
  ⟨rfl, rfl, rfl⟩

/-- Claim C7: the line field of every suggestion is coerced by the total
function `jsToNumber` (never a thrown exception); a non-coercible value
(`none`, modelling NaN) is never in the valid target set; and a successful
run logs exactly one diagnostic per discarded suggestion, carrying the
offending line number value, the file path, and the comment text. -/
theorem invalid_suggestion_diagnostics (file : DiffFile) (chunk : Chunk)
    (items : List Js) (comments : List Comment) (diags : List Diagnostic)
    (h : processChunk file chunk (Js.arr items) = Except.ok (comments, diags)) :
    hasNum (validLineNumbers chunk) none = false ∧
    diags = (items.filter (fun r =>
        !(hasNum (validLineNumbers chunk) (jsToNumber (jsFieldT r "lineNumber"))))).map
      (fun r => { lineNumber := jsFieldT r "lineNumber", path := file.«to»,
                  comment := jsFieldT r "reviewComment" }) :=
  ⟨rfl, processChunk_diags h⟩

/-- Witness for C7 at a concrete payload: the line-99 suggestion yields
exactly one diagnostic. -/
theorem invalid_suggestion_diagnostics_witness :
    [exDiagnostic] = (([exGoodSuggestion, exBadSuggestion].filter (fun r =>
        !(hasNum (validLineNumbers exChunk) (jsToNumber (jsFieldT r "lineNumber"))))).map
      (fun r => { lineNumber := jsFieldT r "lineNumber", path := exFile.«to»,
                  comment := jsFieldT r "reviewComment" })) :=
  (invalid_suggestion_diagnostics exFile exChunk [exGoodSuggestion, exBadSuggestion]
    [exComment] [exDiagnostic] rfl).2

/-- Claim C8: the poster drops the comments with non-positive line numbers;
an empty batch, or one that becomes empty after the drop, never invokes
the posting collaborator; otherwise the collaborator is invoked exactly
once with exactly the comments whose line is greater than zero. -/
theorem comment_batch_posting (comments : List Comment) :
    (mainPost comments = none ↔ comments.filter (fun c => jsNumGt c.line 0) = []) ∧
    (∀ batch, mainPost comments = some batch →
      batch = comments.filter (fun c => jsNumGt c.line 0) ∧ batch ≠ []) := by
  by_cases hl : comments.length > 0
  · by_cases hv : (comments.filter (fun c => jsNumGt c.line 0)).length = 0
    · have hfe : comments.filter (fun c => jsNumGt c.line 0) = [] :=
        List.length_eq_zero.mp hv
      constructor
      · simp [mainPost, createReviewComment, hl, hv, hfe]
      · intro batch hb
        simp [mainPost, createReviewComment, hl, hv] at hb
    · have hfe : comments.filter (fun c => jsNumGt c.line 0) ≠ [] := by
        intro h0
        rw [h0] at hv
        simp at hv
      constructor
      · simp [mainPost, createReviewComment, hl, hv, hfe]
      · intro batch hb
        simp [mainPost, createReviewComment, hl, hv] at hb
        exact ⟨hb.symm, by rw [← hb]; exact hfe⟩
  · have hc : comments = [] := List.length_eq_zero.mp (by omega)
    subst hc
    constructor
    · simp [mainPost]
    · intro batch hb
      simp [mainPost] at hb

/-- Witness for C8: the mixed batch posts exactly its line-2 comment. -/
theorem comment_batch_posting_witness :
    [Comment.mk (Js.str "b1") "a.ts" (some 2)] =
      exComments.filter (fun c => jsNumGt c.line 0) ∧
    [Comment.mk (Js.str "b1") "a.ts" (some 2)] ≠ [] :=
  (comment_batch_posting exComments).2 [Comment.mk (Js.str "b1") "a.ts" (some 2)] rfl

/-- Claim C9 counterexample: a DiffFile with an absent target path is not
skipped: it still yields a ReviewUnit (and hence a model interaction),
contrary to the claim that null/absent paths produce zero ReviewUnits. -/
theorem deleted_file_units_cex :
    exNullFile.«to» = none ∧ unitsOf [exNullFile] = [(exNullFile, exChunk)] ∧
    unitsOf [exNullFile] ≠ [] :=
  ⟨rfl, rfl, by decide⟩

/-- Claim C9 (amended): a DiffFile whose path equals the deletion sentinel
`/dev/null` contributes zero ReviewUnits regardless of hunk content; a
DiffFile whose path is null/absent still produces units (and model
interaction) but every such unit yields zero Comments regardless of the
suggestions. -/
theorem deleted_file_units (parsedDiff : List DiffFile) (u : DiffFile × Chunk)
    (hu : u ∈ unitsOf parsedDiff)
    (f : DiffFile) (chunk : Chunk) (resp : Js)
    (comments : List Comment) (diags : List Diagnostic)
    (hf : f.«to» = none)
    (hp : processChunk f chunk resp = Except.ok (comments, diags)) :
    u.1.«to» ≠ some "/dev/null" ∧ comments = [] := by
  constructor
  · rw [unitsOf] at hu
    obtain ⟨file, hfile, hun⟩ := List.mem_flatMap.mp hu
    by_cases hd : file.«to» = some "/dev/null"
    · rw [if_pos hd] at hun
      simp at hun
    · rw [if_neg hd] at hun
      obtain ⟨c, _, hc⟩ := List.mem_map.mp hun
      rw [← hc]
      exact hd
  · cases ht : truthy resp with
    | false =>
        simp only [processChunk, ht, Except.ok.injEq, Prod.mk.injEq] at hp
        exact hp.1.symm
    | true =>
        obtain ⟨items, classified, ha, hcl, hdg, hcc⟩ := processChunk_ok_inv ht hp
        have hft : fileToTruthy f = false := by
          simp [fileToTruthy, hf]
        rw [createComment_of_falsy_path hft] at hcc
        injection hcc with h2
        exact h2.symm

/-- Witness for C9 (amended) at a concrete pair of files. -/
theorem deleted_file_units_witness :
    (exNullFile, exChunk).1.«to» ≠ some "/dev/null" ∧ ([] : List Comment) = [] :=
  deleted_file_units [exNullFile] (exNullFile, exChunk) (by decide)
    exNullFile exChunk (Js.arr []) [] [] rfl rfl

/-- Claim C10: every element of a hunk's valid target set is strictly
positive, so every Comment the reconciler produces has line > 0 and the
aggregator's defensive drop removes nothing. -/
theorem valid_lines_positive (file : DiffFile) (chunk : Chunk) (resp : Js)
    (comments : List Comment) (diags : List Diagnostic)
    (h : processChunk file chunk resp = Except.ok (comments, diags)) :
    (∀ n ∈ validLineNumbers chunk, 0 < n) ∧
    comments.filter (fun c => jsNumGt c.line 0) = comments := by
  refine ⟨fun n hn => validLineNumbers_pos chunk hn, ?_⟩
  rw [List.filter_eq_self]
  intro c hc
  have hv := processChunk_line_valid h c hc
  obtain ⟨n, hns, hline⟩ := (hasNum_eq_true_iff _ _).mp hv
  rw [hline]
  have hpos := validLineNumbers_pos chunk hns
  simp [jsNumGt]
  omega

/-- Witness for C10: the defensive filter keeps the concrete comment. -/
theorem valid_lines_positive_witness :
    [exComment].filter (fun c => jsNumGt c.line 0) = [exComment] :=
  (valid_lines_positive exFile exChunk exResp [exComment] [exDiagnostic] rfl).2








end AiReviewer
